import Mathlib

/-!
Verification of the spatial-imputation engine (test.py of this repository).

The engine fills missing weekly popularity schedules of places from the
schedules of nearby places.  We embed the program shallowly:

* the raw popular_times field of a record is modelled as the pair of the
  length of its raw text and the outcome of parsing that text
  (RawContent.invalid for text that json.loads rejects or that is not a
  list of day objects, RawContent.days for a list of day objects);
* floating point arithmetic on distances and weights is modelled by exact
  rational arithmetic; the haversine distance itself (trigonometric, float)
  is modelled over the reals separately and the orchestrator is
  parametrised by the distance function it calls;
* numpy matrices are lists of rows; the in-place accumulation
  weighted_sum += sched * weight is modelled with numpy's in-place
  broadcasting rule onto the fixed shape 7 x 24, and a shape that does not
  broadcast is an uncaught error, as in numpy;
* astype(int) is truncation toward zero, modelled by Int.tdiv on the
  numerator and denominator of the exact rational value.
-/

namespace Impute

/-- Canonical weekday order, days_order of parse_schedule. -/
def days_order : List String :=
  ["Monday", "Tuesday", "Wednesday", "Thursday", "Friday", "Saturday", "Sunday"]

/-- Sort key of a day entry name: its index in days_order if recognised,
otherwise 0, as in the key function of the sorted call in parse_schedule. -/
def dayKey (s : String) : Nat :=
  if s ∈ days_order then days_order.indexOf s else 0

/-- One element of the raw JSON list: a weekday name and its hourly values. -/
structure DayEntry where
  name : String
  data : List Int
deriving DecidableEq

/-- Parse outcome of the raw popular_times text: invalid covers text that
json.loads rejects as well as parsed values that are not a list of day
objects (every such case ends in the bare except of parse_schedule);
days is a successfully parsed list of day objects. -/
inductive RawContent
  | invalid
  | days (entries : List DayEntry)
deriving DecidableEq

/-- Raw popular_times cell: the character length of the raw text together
with its parse outcome.  The length is what the has_data heuristic of the
orchestrator inspects; the content is what parse_schedule inspects. -/
structure RawField where
  len : Nat
  content : RawContent
deriving DecidableEq

/-- One record of the CSV: coordinates and the optional raw schedule text
(none models a NaN cell). -/
structure Place where
  latitude : ℚ
  longitude : ℚ
  popular_times : Option RawField
deriving DecidableEq

/-- Rows all share the length of the first row; np.array builds a
rectangular matrix from such a list of rows and raises on a ragged one
(the raise is caught by the bare except of parse_schedule). -/
def rectangular (m : List (List Int)) : Bool :=
  match m with
  | [] => true
  | r :: rs => rs.all (fun x => x.length == r.length)

/-- Stable ascending sort of day entries by dayKey, the sorted call of
parse_schedule. -/
def sortDays (l : List DayEntry) : List DayEntry :=
  l.insertionSort (fun a b => dayKey a.name ≤ dayKey b.name)

/-- parse_schedule: returns the matrix of hourly rows in canonical day
order, or none when the text was invalid, the list empty or shorter than
seven entries, or the rows ragged. -/
def parse_schedule (raw : RawContent) : Option (List (List Int)) :=
  match raw with
  | .invalid => none
  | .days data =>
    if data.isEmpty || data.length < 7 then none
    else
      let matrix := (sortDays data).map (fun d => d.data)
      if rectangular matrix then some matrix else none

/-- format_schedule_back_to_json: emits the seven canonical day names in
order, each with the corresponding row of the matrix.  The source indexes
numpy_matrix[i] for i below 7 and is only ever called on a 7 x 24 matrix;
getD supplies a default that is never used at such call sites. -/
def format_schedule_back_to_json (m : List (List Int)) : List DayEntry :=
  days_order.enum.map (fun p => ⟨p.2, m.getD p.1 []⟩)

/-- has_data heuristic of the orchestrator: a cell counts as data when it
is not NaN and its raw text is longer than 20 characters. -/
def has_data (p : Place) : Bool :=
  match p.popular_times with
  | none => false
  | some r => 20 < r.len

/-- Source rows with their dataframe indices: df[df has_data]. -/
def sourcesOf (df : List Place) : List (Nat × Place) :=
  df.enum.filter (fun q => has_data q.2)

/-- Target rows with their dataframe indices: df[not has_data]. -/
def targetsOf (df : List Place) : List (Nat × Place) :=
  df.enum.filter (fun q => !has_data q.2)

/-- Parse the raw schedule cell of one record; a NaN cell stringifies to
text that json.loads rejects. -/
def parsePlace (p : Place) : Option (List (List Int)) :=
  match p.popular_times with
  | none => none
  | some r => parse_schedule r.content

/-- Pre-parsed source schedules keyed by dataframe index, the
source_schedules dictionary of the orchestrator: sources whose parse
fails are left out. -/
def source_schedules (df : List Place) : List (Nat × List (List Int)) :=
  (sourcesOf df).filterMap (fun q => (parsePlace q.2).map (fun m => (q.1, m)))

/-- Dictionary lookup source_schedules.get(s_idx). -/
def lookupSched (scheds : List (Nat × List (List Int))) (i : Nat) :
    Option (List (List Int)) :=
  (scheds.find? (fun q => q.1 == i)).map (fun q => q.2)

/-- Number of neighbours averaged per target, NEIGHBORS_TO_CONSIDER. -/
def NEIGHBORS_TO_CONSIDER : Nat := 3

/-- Inverse-distance weight of the main loop: 1 / max(dist, 50) ** 2. -/
def weight (d : ℚ) : ℚ := 1 / (max d 50) ^ 2

/-- Distance of the target to every source, in source order; the distance
function stands for the haversine call on the four coordinates. -/
def distancesFrom (distf : ℚ → ℚ → ℚ → ℚ → ℚ) (t : Place)
    (sources : List (Nat × Place)) : List (Nat × ℚ) :=
  sources.map (fun s => (s.1, distf t.latitude t.longitude s.2.latitude s.2.longitude))

/-- Stable ascending sort by distance followed by the top-K slice:
distances.sort(key) and distances[:k]. -/
def selectNeighbors (k : Nat) (cands : List (Nat × ℚ)) : List (Nat × ℚ) :=
  (cands.insertionSort (fun a b => a.2 ≤ b.2)).take k

/-- Weighted rational matrix: rows of exact values standing for the float
rows of numpy. -/
abbrev QMat := List (List ℚ)

/-- np.zeros((7, 24)). -/
def zeros724 : QMat := List.replicate 7 (List.replicate 24 (0 : ℚ))

/-- sched * weight: scalar multiplication of every cell. -/
def matSmul (w : ℚ) (m : List (List Int)) : QMat :=
  m.map (fun r => r.map (fun v => (Int.cast v : ℚ) * w))

/-- Elementwise sum of two matrices of equal shape. -/
def matAdd (a b : QMat) : QMat :=
  List.zipWith (List.zipWith (fun x y => x + y)) a b

/-- Broadcast one row onto length 24 under numpy's rule: a row of length
24 is kept, a single cell is repeated, anything else does not broadcast. -/
def broadcastRowTo24 (r : List ℚ) : Option (List ℚ) :=
  if r.length = 24 then some r
  else if r.length = 1 then some (List.replicate 24 (r.headD 0))
  else none

/-- Row-by-row broadcast; none as soon as one row does not broadcast. -/
def broadcastRows : List (List ℚ) → Option (List (List ℚ))
  | [] => some []
  | r :: rs =>
    match broadcastRowTo24 r, broadcastRows rs with
    | some r2, some rs2 => some (r2 :: rs2)
    | _, _ => none

/-- Broadcast a rectangular operand onto the fixed shape (7, 24), numpy's
rule for the in-place accumulation weighted_sum += sched * weight: each
dimension must equal the output dimension or 1. -/
def broadcastTo724 (s : QMat) : Option QMat :=
  match (if s.length = 7 then some s
         else if s.length = 1 then some (List.replicate 7 (s.headD []))
         else none) with
  | none => none
  | some rows => broadcastRows rows

/-- In-place accumulation weighted_sum += x: the operand is broadcast
onto (7, 24) and added cellwise; none models the uncaught numpy error
raised when the shapes do not broadcast. -/
def iaddBroadcast (acc : QMat) (s : QMat) : Option QMat :=
  (broadcastTo724 s).map (fun b => matAdd acc b)

/-- Inner accumulation loop of the main loop: walks the selected
neighbours, skipping those without a pre-parsed schedule and accumulating
weighted_sum and total_weight for the rest; a shape that does not
broadcast aborts with the numpy error. -/
def aggLoop (scheds : List (Nat × List (List Int))) :
    QMat → ℚ → List (Nat × ℚ) → Except String (QMat × ℚ)
  | wsum, tw, [] => .ok (wsum, tw)
  | wsum, tw, c :: rest =>
    let w := weight c.2
    match lookupSched scheds c.1 with
    | none => aggLoop scheds wsum tw rest
    | some sched =>
      match iaddBroadcast wsum (matSmul w sched) with
      | none => .error "operands could not be broadcast together"
      | some wsum2 => aggLoop scheds wsum2 (tw + w) rest

/-- Truncation toward zero of an exact rational, the effect of
astype(int) on the float value. -/
def truncToZero (q : ℚ) : Int := q.num.tdiv q.den

/-- weighted_sum / total_weight, cellwise. -/
def matDivScalar (m : QMat) (tw : ℚ) : QMat :=
  m.map (fun r => r.map (fun x => x / tw))

/-- astype(int) on the whole matrix. -/
def matTrunc (m : QMat) : List (List Int) :=
  m.map (fun r => r.map truncToZero)

/-- Body of the main loop for one target: neighbour selection, weighted
accumulation, and, when any weight was contributed, the final averaged,
truncated and re-encoded schedule; none means the target is skipped. -/
def imputeVal (distf : ℚ → ℚ → ℚ → ℚ → ℚ) (sources : List (Nat × Place))
    (scheds : List (Nat × List (List Int))) (t : Place) :
    Except String (Option (List DayEntry)) :=
  let distances := distancesFrom distf t sources
  let nearest_k := selectNeighbors NEIGHBORS_TO_CONSIDER distances
  match aggLoop scheds zeros724 0 nearest_k with
  | .error e => .error e
  | .ok (wsum, tw) =>
    if 0 < tw then
      .ok (some (format_schedule_back_to_json (matTrunc (matDivScalar wsum tw))))
    else
      .ok none

/-- Character length of the decimal rendering of an integer, as python
json.dumps emits it. -/
def intStrLen (n : Int) : Nat := (toString n).length

/-- Character length of json.dumps of a list of integers with the default
separators. -/
def intListLen (l : List Int) : Nat :=
  if l.isEmpty then 2 else 2 + (l.map intStrLen).sum + 2 * (l.length - 1)

/-- Character length of json.dumps of one day object with the default
separators. -/
def dayEntryLen (e : DayEntry) : Nat :=
  e.name.length + intListLen e.data + 22

/-- Character length of json.dumps of the whole encoded schedule; the
orchestrator stores this text back into the popular_times cell. -/
def dumpsLen (l : List DayEntry) : Nat :=
  if l.isEmpty then 2 else 2 + (l.map dayEntryLen).sum + 2 * (l.length - 1)

/-- df.at[idx, popular_times] = final_json: replace the raw schedule cell
of row i, leaving every other field and row untouched. -/
def setPT : List Place → Nat → RawField → List Place
  | [], _, _ => []
  | p :: rest, 0, v => { p with popular_times := some v } :: rest
  | p :: rest, Nat.succ n, v => p :: setPT rest n v

/-- Main loop of the orchestrator over the pre-computed target rows,
threading the dataframe and the imputed-row counter. -/
def runLoop (distf : ℚ → ℚ → ℚ → ℚ → ℚ) (sources : List (Nat × Place))
    (scheds : List (Nat × List (List Int))) :
    List (Nat × Place) → List Place → Nat → Except String (List Place × Nat)
  | [], df, count => .ok (df, count)
  | t :: rest, df, count =>
    match imputeVal distf sources scheds t.2 with
    | .error e => .error e
    | .ok none => runLoop distf sources scheds rest df count
    | .ok (some entries) =>
      runLoop distf sources scheds rest
        (setPT df t.1 ⟨dumpsLen entries, .days entries⟩) (count + 1)

/-- Whole run of the orchestrator: partition, zero-source check,
pre-parse of the source schedules, then the main loop.  The script prints
an error and exits before writing any output when there are no sources;
this surfaces as the error value. -/
def runImpute (distf : ℚ → ℚ → ℚ → ℚ → ℚ) (df : List Place) :
    Except String (List Place × Nat) :=
  if (sourcesOf df).isEmpty then .error "No source data found to spread"
  else runLoop distf (sourcesOf df) (source_schedules df) (targetsOf df) df 0

/-- Counters the script prints during a successful run: total places,
sources, targets, and the filled count of the final success line. -/
def reportedCounters (distf : ℚ → ℚ → ℚ → ℚ → ℚ) (df : List Place) :
    Option (List Nat) :=
  match runImpute distf df with
  | .error _ => none
  | .ok q => some [df.length, (sourcesOf df).length, (targetsOf df).length, q.2]

/-- Selected neighbours that actually contribute: those with a pre-parsed
schedule (specification-side definition used to compare the accumulation
loop against the spec's aggregate). -/
def contributing (scheds : List (Nat × List (List Int)))
    (ns : List (Nat × ℚ)) : List (Nat × ℚ) :=
  ns.filter (fun c => (lookupSched scheds c.1).isSome)

/-- Sum of the weights actually contributed (specification-side). -/
def totalWeightOf (scheds : List (Nat × List (List Int)))
    (ns : List (Nat × ℚ)) : ℚ :=
  ((contributing scheds ns).map (fun c => weight c.2)).sum

/-- Elementwise weighted sum of exactly the contributing neighbour
schedules (specification-side). -/
def specWeightedSum (scheds : List (Nat × List (List Int)))
    (ns : List (Nat × ℚ)) : QMat :=
  ((contributing scheds ns).map
    (fun c => matSmul (weight c.2) ((lookupSched scheds c.1).getD []))).foldl
      matAdd zeros724

/-- Canonical schedule shape: exactly 7 rows of exactly 24 values. -/
def shape724 (m : List (List Int)) : Bool :=
  m.length == 7 && m.all (fun r => r.length == 24)

/-- Shapes numpy can broadcast onto (7, 24) in place. -/
def broadcastable724 (m : List (List Int)) : Bool :=
  (m.length == 7 || m.length == 1) && m.all (fun r => r.length == 24 || r.length == 1)

/-- Whether the main-loop body imputes this target (as opposed to
skipping it). -/
def isImputed (distf : ℚ → ℚ → ℚ → ℚ → ℚ) (sources : List (Nat × Place))
    (scheds : List (Nat × List (List Int))) (t : Place) : Bool :=
  match imputeVal distf sources scheds t with
  | .ok (some _) => true
  | _ => false

/-- Neighbour list the main loop selects for a target. -/
def nearestOf (distf : ℚ → ℚ → ℚ → ℚ → ℚ) (sources : List (Nat × Place))
    (t : Place) : List (Nat × ℚ) :=
  selectNeighbors NEIGHBORS_TO_CONSIDER (distancesFrom distf t sources)

/-- math.radians: degrees to radians. -/
noncomputable def radians (x : ℝ) : ℝ := x * (Real.pi / 180)

/-- math.atan2 with its standard quadrant correction (real-valued model
of the C library function on non-NaN inputs). -/
noncomputable def atan2 (y x : ℝ) : ℝ :=
  if 0 < x then Real.arctan (y / x)
  else if x < 0 then
    (if 0 ≤ y then Real.arctan (y / x) + Real.pi else Real.arctan (y / x) - Real.pi)
  else if 0 < y then Real.pi / 2
  else if y < 0 then -(Real.pi / 2)
  else 0

/-- haversine of test.py: great-circle distance in meters with Earth
radius 6371e3, modelled over the reals. -/
noncomputable def haversine (lat1 lon1 lat2 lon2 : ℝ) : ℝ :=
  let R : ℝ := 6371e3
  let phi1 := radians lat1
  let phi2 := radians lat2
  let dphi := radians (lat2 - lat1)
  let dlambda := radians (lon2 - lon1)
  let a := Real.sin (dphi / 2) ^ 2 +
    Real.cos phi1 * Real.cos phi2 * Real.sin (dlambda / 2) ^ 2
  let c := 2 * atan2 (Real.sqrt a) (Real.sqrt (1 - a))
  R * c

/-- Concrete raw schedule with eight day entries, rows of 24 values. -/
def eightDayRaw : List DayEntry :=
  [⟨"Monday", List.replicate 24 0⟩, ⟨"Tuesday", List.replicate 24 0⟩,
   ⟨"Wednesday", List.replicate 24 0⟩, ⟨"Thursday", List.replicate 24 0⟩,
   ⟨"Friday", List.replicate 24 0⟩, ⟨"Saturday", List.replicate 24 0⟩,
   ⟨"Sunday", List.replicate 24 0⟩, ⟨"Monday", List.replicate 24 0⟩]

/-- Concrete seven-day raw schedule given in reverse weekday order. -/
def sevenDayRaw : List DayEntry :=
  [⟨"Sunday", List.replicate 24 6⟩, ⟨"Saturday", List.replicate 24 5⟩,
   ⟨"Friday", List.replicate 24 4⟩, ⟨"Thursday", List.replicate 24 3⟩,
   ⟨"Wednesday", List.replicate 24 2⟩, ⟨"Tuesday", List.replicate 24 1⟩,
   ⟨"Monday", List.replicate 24 0⟩]

/-- Canonical matrix of sevenDayRaw, Monday first. -/
def sevenMat : List (List Int) :=
  [List.replicate 24 0, List.replicate 24 1, List.replicate 24 2,
   List.replicate 24 3, List.replicate 24 4, List.replicate 24 5,
   List.replicate 24 6]

/-- Concrete dataframe for the mixed imputed-and-skipped run: one
decodable source, three sources with undecodable raw text longer than 20
characters, one target whose three nearest sources include the decodable
one, and two targets whose three nearest sources are all undecodable. -/
def cexDf : List Place :=
  [⟨0, 0, some ⟨500, RawContent.days sevenDayRaw⟩⟩,
   ⟨1, 0, some ⟨25, RawContent.invalid⟩⟩,
   ⟨2, 0, some ⟨25, RawContent.invalid⟩⟩,
   ⟨3, 0, some ⟨25, RawContent.invalid⟩⟩,
   ⟨100, 0, none⟩, ⟨200, 0, none⟩, ⟨300, 0, none⟩]

/-- Concrete distance table for cexDf: the target at latitude 100 is
closest to the decodable source, the other targets are closest to the
three undecodable sources. -/
def cexDist (tlat _tlon slat _slon : ℚ) : ℚ :=
  if tlat = 100 then
    (if slat = 0 then 1 else if slat = 1 then 2 else if slat = 2 then 3 else 4)
  else
    (if slat = 0 then 9 else if slat = 1 then 1 else if slat = 2 then 2 else 3)

/-- Concrete dataframe with one undecodable-but-long source and one
target: the run succeeds and changes nothing. -/
def skipDf : List Place :=
  [⟨0, 0, some ⟨25, RawContent.invalid⟩⟩, ⟨1, 1, none⟩]

/-- Rectangularity means all rows share one length. -/
lemma rectangular_iff (m : List (List Int)) :
    rectangular m = true ↔ ∀ x ∈ m, ∀ y ∈ m, x.length = y.length := by
  cases m with
  | nil => simp [rectangular]
  | cons r rs =>
    simp only [rectangular, List.all_eq_true, beq_iff_eq]
    constructor
    · intro h x hx y hy
      rcases List.mem_cons.mp hx with hx | hx <;>
        rcases List.mem_cons.mp hy with hy | hy
      · rw [hx, hy]
      · rw [hx, h y hy]
      · rw [hy, h x hx]
      · rw [h x hx, h y hy]
    · intro h x hx
      exact h x (List.mem_cons_of_mem r hx) r (List.mem_cons_self r rs)

/-- Membership in the day-sorted list is membership in the original. -/
lemma mem_sortDays {e : DayEntry} {l : List DayEntry} :
    e ∈ sortDays l ↔ e ∈ l :=
  (List.perm_insertionSort _ l).mem_iff

/-- C1 counterexample: a record whose raw schedule text is 25 characters
of undecodable garbage is classified as a source and not as a target,
although its raw schedule does not decode; the claimed partition by
schedule decodability is false on this record. -/
theorem C1_counterexample :
    sourcesOf [⟨0, 0, some ⟨25, RawContent.invalid⟩⟩] =
        [(0, ⟨0, 0, some ⟨25, RawContent.invalid⟩⟩)] ∧
    targetsOf [⟨0, 0, some ⟨25, RawContent.invalid⟩⟩] = [] ∧
    parsePlace ⟨0, 0, some ⟨25, RawContent.invalid⟩⟩ = none := by
  decide

/-- C1 amended: the orchestrator partitions records by the raw-text
length heuristic, not by decodability: a record is a source exactly when
its raw cell is present with text longer than 20 characters, and a target
exactly when it is not; every record lands in exactly one of the two
sets. -/
theorem C1_partition_by_heuristic :
    ∀ (df : List Place) (i : Nat) (p : Place),
      ((i, p) ∈ sourcesOf df ↔ (i, p) ∈ df.enum ∧ has_data p = true) ∧
      ((i, p) ∈ targetsOf df ↔ (i, p) ∈ df.enum ∧ has_data p = false) := by
  intro df i p
  constructor
  · simp [sourcesOf, List.mem_filter]
  · simp [targetsOf, List.mem_filter]

/-- C2 counterexample: an input with eight day entries decodes to a
matrix instead of yielding NoData; the code only rejects fewer than seven
entries, so the claimed NoData on more than seven entries is false. -/
theorem C2_counterexample :
    eightDayRaw.length = 8 ∧
    (parse_schedule (RawContent.days eightDayRaw)).isSome = true := by
  decide

/-- C2 amended: decode returns NoData exactly when the input is
unparsable or not shaped as a list of day objects, or contains fewer than
seven day entries, or its day entries carry rows of differing lengths; an
input with more than seven uniform day entries decodes to a matrix with
that many rows. -/
theorem C2_parse_none_iff :
    ∀ raw : RawContent,
      parse_schedule raw = none ↔
        (raw = RawContent.invalid ∨
          ∃ l, raw = RawContent.days l ∧
            (l.length < 7 ∨
              ∃ e1 ∈ l, ∃ e2 ∈ l, e1.data.length ≠ e2.data.length)) := by
  intro raw
  cases raw with
  | invalid => simp [parse_schedule]
  | days l =>
    simp only [parse_schedule, RawContent.days.injEq, reduceCtorEq, false_or]
    by_cases hlen : l.isEmpty || l.length < 7
    · rw [if_pos hlen]
      have hl7 : l.length < 7 := by
        rcases (by simpa using hlen : l = [] ∨ l.length < 7) with h | h
        · simp [h]
        · exact h
      exact iff_of_true rfl ⟨l, rfl, Or.inl hl7⟩
    · rw [if_neg hlen]
      have hl7 : ¬ l.length < 7 := by
        intro h
        exact hlen (by simp [h])
      constructor
      · intro hnone
        refine ⟨l, rfl, Or.inr ?_⟩
        by_cases hrect : rectangular ((sortDays l).map (fun d => d.data)) = true
        · rw [if_pos hrect] at hnone
          exact absurd hnone (by simp)
        · have := (not_iff_not.mpr (rectangular_iff _)).mp hrect
          push_neg at this
          obtain ⟨x, hx, y, hy, hxy⟩ := this
          obtain ⟨e1, he1, he1x⟩ := List.mem_map.mp hx
          obtain ⟨e2, he2, he2y⟩ := List.mem_map.mp hy
          exact ⟨e1, mem_sortDays.mp he1, e2, mem_sortDays.mp he2, by
            rw [he1x, he2y]; exact hxy⟩
      · rintro ⟨l2, hl2, hbad⟩
        cases hl2
        rcases hbad with hbad | ⟨e1, he1, e2, he2, hne⟩
        · exact absurd hbad hl7
        · have hrect : rectangular ((sortDays l).map (fun d => d.data)) = false := by
            rw [Bool.eq_false_iff]
            intro htrue
            exact hne ((rectangular_iff _).mp htrue e1.data
              (List.mem_map.mpr ⟨e1, mem_sortDays.mpr he1, rfl⟩) e2.data
              (List.mem_map.mpr ⟨e2, mem_sortDays.mpr he2, rfl⟩))
          simp [hrect]

/-- C8: the interpolation weight is one over the square of the distance
clamped below at the 50 meter floor, and every distance at or below the
floor receives the same weight as the floor itself. -/
theorem C8_weight_floor :
    (∀ d : ℚ, weight d = 1 / max d 50 ^ 2) ∧
    (∀ d : ℚ, d ≤ 50 → weight d = weight 50) ∧
    weight 0 = weight 50 := by
  refine ⟨fun d => rfl, fun d hd => ?_, ?_⟩
  · simp only [weight, max_eq_right hd, max_self]
  · simp only [weight, max_self, max_eq_right (by norm_num : (0 : ℚ) ≤ 50)]

/-- C8 witness: the distance 7 is at most the floor and receives the
floor weight. -/
theorem C8_witness : (7 : ℚ) ≤ 50 ∧ weight 7 = weight 50 :=
  ⟨by norm_num, C8_weight_floor.2.1 7 (by norm_num)⟩

/-- C9: the haversine distance is symmetric in its two coordinate pairs,
and the distance of a point to itself is exactly zero in the real-valued
model (hence within floating-point tolerance). -/
theorem C9_haversine_symm_and_self_zero :
    (∀ lat1 lon1 lat2 lon2 : ℝ,
      haversine lat1 lon1 lat2 lon2 = haversine lat2 lon2 lat1 lon1) ∧
    (∀ lat lon : ℝ, haversine lat lon lat lon = 0) := by
  constructor
  · intro a b c d
    have h1 : Real.sin (radians (c - a) / 2) ^ 2
        = Real.sin (radians (a - c) / 2) ^ 2 := by
      have hx : radians (c - a) / 2 = -(radians (a - c) / 2) := by
        simp only [radians]; ring
      rw [hx, Real.sin_neg]; ring
    have h2 : Real.sin (radians (d - b) / 2) ^ 2
        = Real.sin (radians (b - d) / 2) ^ 2 := by
      have hx : radians (d - b) / 2 = -(radians (b - d) / 2) := by
        simp only [radians]; ring
      rw [hx, Real.sin_neg]; ring
    simp only [haversine]
    rw [h1, h2, mul_comm (Real.cos (radians a)) (Real.cos (radians c))]
  · intro lat lon
    simp only [haversine, sub_self, radians, zero_mul, zero_div,
      Real.sin_zero, ne_eq, OfNat.ofNat_ne_zero, not_false_eq_true,
      zero_pow, zero_add, mul_zero, add_zero, Real.sqrt_zero, sub_zero,
      Real.sqrt_one, atan2]
    rw [if_pos (by norm_num : (0 : ℝ) < 1)]
    simp [Real.arctan_zero]

/-- Decomposition of a seven-element list into its elements. -/
lemma exists_seven {α : Type} (l : List α) (h : l.length = 7) :
    ∃ a0 a1 a2 a3 a4 a5 a6, l = [a0, a1, a2, a3, a4, a5, a6] := by
  obtain ⟨a0, t0, rfl⟩ := List.exists_of_length_succ l h
  obtain ⟨a1, t1, rfl⟩ := List.exists_of_length_succ t0 (by simpa using h)
  obtain ⟨a2, t2, rfl⟩ := List.exists_of_length_succ t1 (by simpa using h)
  obtain ⟨a3, t3, rfl⟩ := List.exists_of_length_succ t2 (by simpa using h)
  obtain ⟨a4, t4, rfl⟩ := List.exists_of_length_succ t3 (by simpa using h)
  obtain ⟨a5, t5, rfl⟩ := List.exists_of_length_succ t4 (by simpa using h)
  obtain ⟨a6, t6, rfl⟩ := List.exists_of_length_succ t5 (by simpa using h)
  have h0 : t6.length = 0 := by
    simp only [List.length_cons] at h
    omega
  exact ⟨a0, a1, a2, a3, a4, a5, a6,
    by rw [List.eq_nil_of_length_eq_zero h0]⟩

/-- Unfolding of parse_schedule on a seven-entry list: only the
rectangularity check remains. -/
lemma parse_days_of_len7 (l : List DayEntry) (h7 : l.length = 7) :
    parse_schedule (RawContent.days l) =
      if rectangular ((sortDays l).map (fun d => d.data)) then
        some ((sortDays l).map (fun d => d.data)) else none := by
  have hE : l.isEmpty = false := by
    cases l with
    | nil => simp at h7
    | cons a t => rfl
  simp [parse_schedule, hE, h7]

/-- C10: decoding a valid seven-day raw schedule, re-encoding the matrix
and decoding again reproduces the same canonical matrix; the encoder
emits the seven canonical day names Monday-first, which the second decode
leaves in place. -/
theorem C10_roundtrip :
    ∀ (l : List DayEntry) (m : List (List Int)),
      l.length = 7 →
      parse_schedule (RawContent.days l) = some m →
      parse_schedule (RawContent.days (format_schedule_back_to_json m)) = some m := by
  intro l m h7 hparse
  rw [parse_days_of_len7 l h7] at hparse
  by_cases hrect : rectangular ((sortDays l).map (fun d => d.data)) = true
  · rw [if_pos hrect] at hparse
    have hm : (sortDays l).map (fun d => d.data) = m := Option.some.inj hparse
    have hmlen : m.length = 7 := by
      rw [← hm]
      simp [sortDays, List.length_insertionSort, h7]
    obtain ⟨a0, a1, a2, a3, a4, a5, a6, rfl⟩ := exists_seven m hmlen
    rw [hm] at hrect
    have hfmt : format_schedule_back_to_json [a0, a1, a2, a3, a4, a5, a6] =
        [⟨"Monday", a0⟩, ⟨"Tuesday", a1⟩, ⟨"Wednesday", a2⟩, ⟨"Thursday", a3⟩,
         ⟨"Friday", a4⟩, ⟨"Saturday", a5⟩, ⟨"Sunday", a6⟩] := rfl
    rw [hfmt, parse_days_of_len7
      [⟨"Monday", a0⟩, ⟨"Tuesday", a1⟩, ⟨"Wednesday", a2⟩, ⟨"Thursday", a3⟩,
       ⟨"Friday", a4⟩, ⟨"Saturday", a5⟩, ⟨"Sunday", a6⟩] (by rfl)]
    have hs : (sortDays
        [⟨"Monday", a0⟩, ⟨"Tuesday", a1⟩, ⟨"Wednesday", a2⟩, ⟨"Thursday", a3⟩,
         ⟨"Friday", a4⟩, ⟨"Saturday", a5⟩, ⟨"Sunday", a6⟩]).map (fun d => d.data) =
        [a0, a1, a2, a3, a4, a5, a6] := rfl
    rw [hs, if_pos hrect]
  · rw [if_neg hrect] at hparse
    exact absurd hparse (by simp)

/-- C10 witness: the round trip on a concrete scrambled seven-day raw
schedule. -/
theorem C10_witness :
    sevenDayRaw.length = 7 ∧
    parse_schedule (RawContent.days sevenDayRaw) = some sevenMat ∧
    parse_schedule (RawContent.days (format_schedule_back_to_json sevenMat)) =
      some sevenMat := by
  refine ⟨by decide, by decide, C10_roundtrip sevenDayRaw sevenMat (by decide) (by decide)⟩

/-- C7: neighbour selection returns the k closest candidates sorted
ascending by distance: the output length is the minimum of k and the
number of sources, the output is sorted, a k at least the number of
sources returns all of them, and candidates at equal distance keep their
original relative order (the stable sort leaves the sequence of
candidates at any fixed distance unchanged, and the top-K slice takes a
sub-sequence of it). -/
theorem C7_select :
    ∀ (k : Nat) (cands : List (Nat × ℚ)),
      (selectNeighbors k cands).length = min k cands.length ∧
      (selectNeighbors k cands).Sorted (fun a b => a.2 ≤ b.2) ∧
      (cands.length ≤ k → (selectNeighbors k cands).Perm cands) ∧
      (∀ d : ℚ,
        (cands.insertionSort (fun a b => a.2 ≤ b.2)).filter (fun c => c.2 = d) =
          cands.filter (fun c => c.2 = d)) ∧
      (∀ d : ℚ,
        ((selectNeighbors k cands).filter (fun c => c.2 = d)).Sublist
          (cands.filter (fun c => c.2 = d))) := by
  intro k cands
  haveI hTot : IsTotal (Nat × ℚ) (fun a b => a.2 ≤ b.2) := ⟨fun a b => le_total a.2 b.2⟩
  haveI hTra : IsTrans (Nat × ℚ) (fun a b => a.2 ≤ b.2) :=
    ⟨fun _ _ _ h1 h2 => le_trans h1 h2⟩
  have hstab : ∀ d : ℚ,
      (cands.insertionSort (fun a b => a.2 ≤ b.2)).filter (fun c => c.2 = d) =
        cands.filter (fun c => c.2 = d) := by
    intro d
    have hmemB : ∀ x ∈ cands.filter (fun c => decide (c.2 = d)), x.2 = d := by
      intro x hx
      simpa using (List.mem_filter.mp hx).2
    have hBpair : (cands.filter (fun c => decide (c.2 = d))).Pairwise
        (fun a b : Nat × ℚ => a.2 ≤ b.2) := by
      apply List.pairwise_of_forall_mem_list
      intro a ha b hb
      rw [hmemB a ha, hmemB b hb]
    have hBsub : (cands.filter (fun c => decide (c.2 = d))).Sublist
        (cands.insertionSort (fun a b => a.2 ≤ b.2)) :=
      List.sublist_insertionSort hBpair (List.filter_sublist cands)
    have hBA : (cands.filter (fun c => decide (c.2 = d))).Sublist
        ((cands.insertionSort (fun a b => a.2 ≤ b.2)).filter
          (fun c => decide (c.2 = d))) := by
      have := List.Sublist.filter (fun c : Nat × ℚ => decide (c.2 = d)) hBsub
      rwa [List.filter_eq_self.mpr (fun x hx => by simpa using hmemB x hx)] at this
    have hperm : ((cands.insertionSort (fun a b => a.2 ≤ b.2)).filter
        (fun c => decide (c.2 = d))).Perm
          (cands.filter (fun c => decide (c.2 = d))) :=
      (List.perm_insertionSort _ cands).filter _
    exact (hBA.eq_of_length hperm.length_eq.symm).symm
  refine ⟨?_, ?_, ?_, hstab, ?_⟩
  · simp [selectNeighbors, List.length_take, List.length_insertionSort]
  · exact (List.sorted_insertionSort _ cands).sublist (List.take_sublist _ _)
  · intro hk
    have : selectNeighbors k cands = cands.insertionSort (fun a b => a.2 ≤ b.2) := by
      apply List.take_of_length_le
      simpa [List.length_insertionSort] using hk
    rw [this]
    exact List.perm_insertionSort _ cands
  · intro d
    have h1 : ((selectNeighbors k cands).filter (fun c => decide (c.2 = d))).Sublist
        ((cands.insertionSort (fun a b => a.2 ≤ b.2)).filter
          (fun c => decide (c.2 = d))) :=
      List.Sublist.filter _ (List.take_sublist _ _)
    rw [hstab d] at h1
    exact h1

/-- C7 witness: on a concrete candidate list with a distance tie, a k
beyond the source count returns all sources. -/
theorem C7_witness :
    (selectNeighbors 5 [(1, (5 : ℚ)), (2, 3), (3, 5)]).Perm
      [(1, (5 : ℚ)), (2, 3), (3, 5)] :=
  (C7_select 5 [(1, (5 : ℚ)), (2, 3), (3, 5)]).2.2.1 (by decide)

/-- Every inverse-distance weight is strictly positive. -/
lemma weight_pos (d : ℚ) : 0 < weight d := by
  have h : (0 : ℚ) < max d 50 := lt_of_lt_of_le (by norm_num) (le_max_right d 50)
  exact div_pos one_pos (pow_pos h 2)

/-- Unpacking of the canonical-shape check. -/
lemma shape724_spec {m : List (List Int)} (h : shape724 m = true) :
    m.length = 7 ∧ ∀ r ∈ m, r.length = 24 := by
  simpa [shape724, List.all_eq_true] using h

/-- Rows of length 24 broadcast to themselves. -/
lemma broadcastRows_id {rows : List (List ℚ)} (h : ∀ r ∈ rows, r.length = 24) :
    broadcastRows rows = some rows := by
  induction rows with
  | nil => rfl
  | cons r rs ih =>
    have hr : broadcastRowTo24 r = some r := by
      simp [broadcastRowTo24, h r (List.mem_cons_self r rs)]
    have hrs : broadcastRows rs = some rs :=
      ih (fun x hx => h x (List.mem_cons_of_mem r hx))
    simp [broadcastRows, hr, hrs]

/-- A matrix already of shape (7, 24) broadcasts to itself. -/
lemma broadcastTo724_id {s : QMat} (h7 : s.length = 7)
    (h24 : ∀ r ∈ s, r.length = 24) : broadcastTo724 s = some s := by
  simp [broadcastTo724, h7, broadcastRows_id h24]

/-- Accumulating a weighted schedule of canonical shape is plain
elementwise addition. -/
lemma iaddBroadcast_of_shape724 {acc : QMat} {m : List (List Int)} {w : ℚ}
    (h : shape724 m = true) :
    iaddBroadcast acc (matSmul w m) = some (matAdd acc (matSmul w m)) := by
  obtain ⟨h7, h24⟩ := shape724_spec h
  have hlen : (matSmul w m).length = 7 := by simp [matSmul, h7]
  have hrows : ∀ r ∈ matSmul w m, r.length = 24 := by
    intro r hr
    obtain ⟨r0, hr0, rfl⟩ := List.mem_map.mp hr
    rw [List.length_map]
    exact h24 r0 hr0
  simp [iaddBroadcast, broadcastTo724_id hlen hrows]

/-- A schedule found in the lookup is one of its entries. -/
lemma lookupSched_eq_some {scheds : List (Nat × List (List Int))} {i : Nat}
    {m : List (List Int)} (h : lookupSched scheds i = some m) :
    ∃ q ∈ scheds, q.2 = m := by
  simp only [lookupSched, Option.map_eq_some'] at h
  obtain ⟨q, hq, hq2⟩ := h
  exact ⟨q, List.mem_of_find?_eq_some hq, hq2⟩

/-- Specification of the accumulation loop when every pre-parsed schedule
has the canonical shape: the loop succeeds, the accumulated sum is the
fold of the weighted contributing schedules, and the accumulated weight
is the sum of exactly the contributing weights. -/
lemma aggLoop_ok_of_shapes (scheds : List (Nat × List (List Int)))
    (h : ∀ x ∈ scheds, shape724 x.2 = true) :
    ∀ (ns : List (Nat × ℚ)) (wsum : QMat) (tw : ℚ),
      aggLoop scheds wsum tw ns = .ok
        (((contributing scheds ns).map (fun c => matSmul (weight c.2)
            ((lookupSched scheds c.1).getD []))).foldl matAdd wsum,
         tw + totalWeightOf scheds ns) := by
  intro ns
  induction ns with
  | nil =>
    intro wsum tw
    simp [aggLoop, contributing, totalWeightOf]
  | cons c rest ih =>
    intro wsum tw
    cases hl : lookupSched scheds c.1 with
    | none =>
      have hco : contributing scheds (c :: rest) = contributing scheds rest := by
        simp [contributing, List.filter_cons, hl]
      have htw : totalWeightOf scheds (c :: rest) = totalWeightOf scheds rest := by
        simp [totalWeightOf, hco]
      simp only [aggLoop, hl]
      rw [ih, hco, htw]
    | some sched =>
      have hsh : shape724 sched = true := by
        obtain ⟨q, hq, hq2⟩ := lookupSched_eq_some hl
        rw [← hq2]
        exact h q hq
      have hco : contributing scheds (c :: rest) = c :: contributing scheds rest := by
        simp [contributing, List.filter_cons, hl]
      have htw : totalWeightOf scheds (c :: rest) =
          weight c.2 + totalWeightOf scheds rest := by
        simp [totalWeightOf, hco]
      simp only [aggLoop, hl, iaddBroadcast_of_shape724 hsh]
      rw [ih, hco, htw]
      simp only [List.map_cons, hl, Option.getD_some, List.foldl_cons]
      rw [add_assoc]

/-- When no selected neighbour has a pre-parsed schedule, the
accumulation loop returns its arguments unchanged (and cannot fail). -/
lemma aggLoop_no_contrib (scheds : List (Nat × List (List Int))) :
    ∀ (ns : List (Nat × ℚ)) (wsum : QMat) (tw : ℚ),
      contributing scheds ns = [] →
      aggLoop scheds wsum tw ns = .ok (wsum, tw) := by
  intro ns
  induction ns with
  | nil => intro wsum tw _; simp [aggLoop]
  | cons c rest ih =>
    intro wsum tw hc
    cases hl : lookupSched scheds c.1 with
    | none =>
      have hrest : contributing scheds rest = [] := by
        simpa [contributing, List.filter_cons, hl] using hc
      simp only [aggLoop, hl]
      exact ih wsum tw hrest
    | some sched =>
      exfalso
      have hcons : (c :: contributing scheds rest) = [] := by
        simp only [contributing, List.filter_cons, hl, Option.isSome_some,
          if_pos] at hc
        exact hc
      exact List.cons_ne_nil _ _ hcons

/-- The sum of the contributed weights is positive as soon as one
neighbour contributes. -/
lemma totalWeightOf_pos {scheds : List (Nat × List (List Int))}
    {ns : List (Nat × ℚ)} (h : contributing scheds ns ≠ []) :
    0 < totalWeightOf scheds ns := by
  apply List.sum_pos
  · intro x hx
    obtain ⟨c, _, rfl⟩ := List.mem_map.mp hx
    exact weight_pos c.2
  · simpa [List.map_eq_nil_iff] using h

/-- Body of the main loop on a target none of whose selected neighbours
contributes: the target is skipped. -/
lemma imputeVal_skip {distf : ℚ → ℚ → ℚ → ℚ → ℚ} {sources : List (Nat × Place)}
    {scheds : List (Nat × List (List Int))} {t : Place}
    (h : contributing scheds (nearestOf distf sources t) = []) :
    imputeVal distf sources scheds t = .ok none := by
  simp only [nearestOf] at h
  simp only [imputeVal, aggLoop_no_contrib scheds _ _ _ h]
  norm_num

/-- Body of the main loop on a target with at least one contributing
neighbour, when every pre-parsed schedule has the canonical shape: the
imputed schedule is the re-encoded truncation of the weighted sum of
exactly the contributing schedules divided by the sum of exactly the
contributed weights. -/
lemma imputeVal_impute {distf : ℚ → ℚ → ℚ → ℚ → ℚ} {sources : List (Nat × Place)}
    {scheds : List (Nat × List (List Int))} {t : Place}
    (h724 : ∀ x ∈ scheds, shape724 x.2 = true)
    (hc : contributing scheds (nearestOf distf sources t) ≠ []) :
    imputeVal distf sources scheds t = .ok (some (format_schedule_back_to_json
      (matTrunc (matDivScalar
        (specWeightedSum scheds (nearestOf distf sources t))
        (totalWeightOf scheds (nearestOf distf sources t)))))) := by
  have hpos := totalWeightOf_pos hc
  simp only [nearestOf] at hpos ⊢
  simp only [imputeVal, aggLoop_ok_of_shapes scheds h724, zero_add,
    specWeightedSum]
  rw [if_pos hpos]

/-- Unpacking of the broadcastable-shape check. -/
lemma broadcastable724_spec {m : List (List Int)} (h : broadcastable724 m = true) :
    (m.length = 7 ∨ m.length = 1) ∧ ∀ r ∈ m, r.length = 24 ∨ r.length = 1 := by
  simpa [broadcastable724, List.all_eq_true] using h

/-- A row of length 24 or 1 broadcasts. -/
lemma broadcastRowTo24_isSome {r : List ℚ} (h : r.length = 24 ∨ r.length = 1) :
    (broadcastRowTo24 r).isSome = true := by
  rcases h with h | h <;> simp [broadcastRowTo24, h]

/-- All rows broadcasting means the matrix broadcasts row by row. -/
lemma broadcastRows_isSome {rows : List (List ℚ)}
    (h : ∀ r ∈ rows, (broadcastRowTo24 r).isSome = true) :
    (broadcastRows rows).isSome = true := by
  induction rows with
  | nil => simp [broadcastRows]
  | cons r rs ih =>
    obtain ⟨r2, hr2⟩ := Option.isSome_iff_exists.mp (h r (List.mem_cons_self r rs))
    obtain ⟨rs2, hrs2⟩ := Option.isSome_iff_exists.mp
      (ih (fun x hx => h x (List.mem_cons_of_mem r hx)))
    simp [broadcastRows, hr2, hrs2]

/-- Accumulating a weighted schedule of broadcastable shape succeeds. -/
lemma iaddBroadcast_isSome {acc : QMat} {w : ℚ} {m : List (List Int)}
    (hb : broadcastable724 m = true) :
    (iaddBroadcast acc (matSmul w m)).isSome = true := by
  obtain ⟨h7, hrows⟩ := broadcastable724_spec hb
  have hsrows : ∀ r ∈ matSmul w m, (broadcastRowTo24 r).isSome = true := by
    intro r hr
    obtain ⟨r0, hr0, rfl⟩ := List.mem_map.mp hr
    exact broadcastRowTo24_isSome (by
      rw [List.length_map]
      exact hrows r0 hr0)
  have hmain : (broadcastTo724 (matSmul w m)).isSome = true := by
    rcases h7 with h7 | h1
    · have hs7 : (matSmul w m).length = 7 := by simp [matSmul, h7]
      simp only [broadcastTo724, hs7, if_pos]
      exact broadcastRows_isSome hsrows
    · obtain ⟨r0, t0, rfl⟩ := List.exists_of_length_succ m h1
      have ht0 : t0 = [] := by
        simp only [List.length_cons, Nat.add_left_eq_self] at h1
        exact List.eq_nil_of_length_eq_zero h1
      subst ht0
      have hone : (matSmul w [r0]).length = 1 := rfl
      have hne17 : (1 : Nat) ≠ 7 := by norm_num
      simp only [broadcastTo724, hone, hne17, if_false, if_pos]
      apply broadcastRows_isSome
      intro r hr
      have hrep : r = (matSmul w [r0]).headD [] := List.eq_of_mem_replicate hr
      rw [hrep]
      exact hsrows _ (by simp [matSmul])
  obtain ⟨b, hbv⟩ := Option.isSome_iff_exists.mp hmain
  simp [iaddBroadcast, hbv]

/-- The accumulation loop never fails when every pre-parsed schedule has
a broadcastable shape. -/
lemma aggLoop_total (scheds : List (Nat × List (List Int)))
    (hb : ∀ x ∈ scheds, broadcastable724 x.2 = true) :
    ∀ (ns : List (Nat × ℚ)) (wsum : QMat) (tw : ℚ),
      ∃ r, aggLoop scheds wsum tw ns = .ok r := by
  intro ns
  induction ns with
  | nil => intro wsum tw; exact ⟨(wsum, tw), by simp [aggLoop]⟩
  | cons c rest ih =>
    intro wsum tw
    cases hl : lookupSched scheds c.1 with
    | none =>
      obtain ⟨r, hr⟩ := ih wsum tw
      exact ⟨r, by simp only [aggLoop, hl]; exact hr⟩
    | some sched =>
      have hbs : broadcastable724 sched = true := by
        obtain ⟨q, hq, hq2⟩ := lookupSched_eq_some hl
        rw [← hq2]
        exact hb q hq
      obtain ⟨w2, hw2⟩ := Option.isSome_iff_exists.mp
        (@iaddBroadcast_isSome wsum (weight c.2) sched hbs)
      obtain ⟨r, hr⟩ := ih w2 (tw + weight c.2)
      exact ⟨r, by simp only [aggLoop, hl, hw2]; exact hr⟩

/-- The body of the main loop never fails when every pre-parsed schedule
has a broadcastable shape. -/
lemma imputeVal_total {distf : ℚ → ℚ → ℚ → ℚ → ℚ} {sources : List (Nat × Place)}
    {scheds : List (Nat × List (List Int))}
    (hb : ∀ x ∈ scheds, broadcastable724 x.2 = true) (t : Place) :
    ∃ r, imputeVal distf sources scheds t = .ok r := by
  obtain ⟨⟨wsum, tw⟩, hr⟩ := aggLoop_total scheds hb
    (selectNeighbors NEIGHBORS_TO_CONSIDER (distancesFrom distf t sources)) zeros724 0
  refine ⟨if 0 < tw then
    some (format_schedule_back_to_json (matTrunc (matDivScalar wsum tw)))
    else none, ?_⟩
  simp only [imputeVal, hr]
  split_ifs <;> rfl

/-- The whole main loop never fails when every pre-parsed schedule has a
broadcastable shape. -/
lemma runLoop_total {distf : ℚ → ℚ → ℚ → ℚ → ℚ} {sources : List (Nat × Place)}
    {scheds : List (Nat × List (List Int))}
    (hb : ∀ x ∈ scheds, broadcastable724 x.2 = true) :
    ∀ (ts : List (Nat × Place)) (df : List Place) (count : Nat),
      ∃ r, runLoop distf sources scheds ts df count = .ok r := by
  intro ts
  induction ts with
  | nil => intro df count; exact ⟨(df, count), by simp [runLoop]⟩
  | cons t rest ih =>
    intro df count
    obtain ⟨o, ho⟩ := @imputeVal_total distf sources scheds hb t.2
    cases o with
    | none =>
      obtain ⟨r, hr⟩ := ih df count
      exact ⟨r, by simp only [runLoop, ho]; exact hr⟩
    | some e =>
      obtain ⟨r, hr⟩ := ih (setPT df t.1 ⟨dumpsLen e, .days e⟩) (count + 1)
      exact ⟨r, by simp only [runLoop, ho]; exact hr⟩

/-- Cell update of the dataframe: reading any row after the write either
sees the updated raw schedule (the written row) or exactly the old row. -/
lemma setPT_getElem? :
    ∀ (df : List Place) (i : Nat) (v : RawField) (j : Nat),
      (setPT df i v)[j]? =
        if j = i then df[j]?.map (fun p => { p with popular_times := some v })
        else df[j]? := by
  intro df
  induction df with
  | nil => intro i v j; simp [setPT]
  | cons p rest ih =>
    intro i v j
    cases i with
    | zero =>
      cases j with
      | zero => simp [setPT]
      | succ j2 => simp [setPT]
    | succ i2 =>
      cases j with
      | zero => simp [setPT]
      | succ j2 =>
        have := ih i2 v j2
        simp only [setPT, List.getElem?_cons_succ, Nat.succ.injEq]
        rw [this]

/-- Rows whose index is touched by none of the remaining targets are
unchanged by the rest of the main loop. -/
lemma runLoop_frame {distf : ℚ → ℚ → ℚ → ℚ → ℚ} {sources : List (Nat × Place)}
    {scheds : List (Nat × List (List Int))} :
    ∀ (ts : List (Nat × Place)) (df : List Place) (count : Nat)
      (res : List Place × Nat),
      runLoop distf sources scheds ts df count = .ok res →
      ∀ j, (∀ q ∈ ts, q.1 ≠ j) → res.1[j]? = df[j]? := by
  intro ts
  induction ts with
  | nil =>
    intro df count res h j _
    simp only [runLoop] at h
    cases h
    rfl
  | cons t rest ih =>
    intro df count res h j hj
    cases him : imputeVal distf sources scheds t.2 with
    | error e =>
      simp only [runLoop, him] at h
      exact Except.noConfusion h
    | ok o =>
      cases o with
      | none =>
        simp only [runLoop, him] at h
        exact ih _ _ _ h j (fun q hq => hj q (List.mem_cons_of_mem t hq))
      | some e =>
        simp only [runLoop, him] at h
        rw [ih _ _ _ h j (fun q hq => hj q (List.mem_cons_of_mem t hq)),
          setPT_getElem?]
        exact if_neg (fun hup => hj t (List.mem_cons_self t rest) hup.symm)

/-- The final counter is the starting counter plus the number of targets
the loop body imputes. -/
lemma runLoop_count {distf : ℚ → ℚ → ℚ → ℚ → ℚ} {sources : List (Nat × Place)}
    {scheds : List (Nat × List (List Int))} :
    ∀ (ts : List (Nat × Place)) (df : List Place) (count : Nat)
      (df2 : List Place) (n : Nat),
      runLoop distf sources scheds ts df count = .ok (df2, n) →
      n = count + ts.countP (fun q => isImputed distf sources scheds q.2) := by
  intro ts
  induction ts with
  | nil =>
    intro df count df2 n h
    simp only [runLoop] at h
    cases h
    simp
  | cons t rest ih =>
    intro df count df2 n h
    cases him : imputeVal distf sources scheds t.2 with
    | error e =>
      simp only [runLoop, him] at h
      exact Except.noConfusion h
    | ok o =>
      have himp : isImputed distf sources scheds t.2 =
          (match o with | none => false | some _ => true) := by
        simp only [isImputed, him]
        cases o <;> rfl
      cases o with
      | none =>
        simp only [runLoop, him] at h
        rw [ih _ _ _ _ h, List.countP_cons, himp]
        simp
      | some e =>
        simp only [runLoop, him] at h
        rw [ih _ _ _ _ h, List.countP_cons, himp]
        simp
        ring

/-- Characterisation of the final dataframe on the targets: each target
row of the output is obtained from its input row by the outcome of the
loop body on that target alone, computed from the pre-loop sources and
pre-parsed schedules only. -/
lemma runLoop_target {distf : ℚ → ℚ → ℚ → ℚ → ℚ} {sources : List (Nat × Place)}
    {scheds : List (Nat × List (List Int))} :
    ∀ (ts : List (Nat × Place)) (df : List Place) (count : Nat)
      (df2 : List Place) (n : Nat),
      ts.Pairwise (fun a b => a.1 ≠ b.1) →
      runLoop distf sources scheds ts df count = .ok (df2, n) →
      ∀ q ∈ ts, ∃ r, imputeVal distf sources scheds q.2 = Except.ok r ∧
        df2[q.1]? = (match r with
          | none => df[q.1]?
          | some e => df[q.1]?.map (fun p =>
              { p with popular_times := some ⟨dumpsLen e, RawContent.days e⟩ })) := by
  intro ts
  induction ts with
  | nil => intro df count df2 n _ _ q hq; exact absurd hq (List.not_mem_nil q)
  | cons t rest ih =>
    intro df count df2 n hpair h q hq
    obtain ⟨ht, hrest⟩ := List.pairwise_cons.mp hpair
    cases him : imputeVal distf sources scheds t.2 with
    | error e =>
      simp only [runLoop, him] at h
      exact Except.noConfusion h
    | ok o =>
      cases o with
      | none =>
        simp only [runLoop, him] at h
        rcases List.mem_cons.mp hq with rfl | hq2
        · refine ⟨none, him, ?_⟩
          exact runLoop_frame rest df count (df2, n) h q.1
            (fun q2 hq2 => (ht q2 hq2).symm)
        · exact ih _ _ _ _ hrest h q hq2
      | some e =>
        simp only [runLoop, him] at h
        rcases List.mem_cons.mp hq with rfl | hq2
        · refine ⟨some e, him, ?_⟩
          rw [runLoop_frame rest _ _ (df2, n) h q.1
            (fun q2 hq2 => (ht q2 hq2).symm), setPT_getElem?, if_pos rfl]
        · obtain ⟨r, hr, hval⟩ := ih _ _ _ _ hrest h q hq2
          refine ⟨r, hr, ?_⟩
          rw [hval]
          have hq1 : (setPT df t.1 ⟨dumpsLen e, RawContent.days e⟩)[q.1]? = df[q.1]? := by
            rw [setPT_getElem?]
            exact if_neg (fun hup => ht q hq2 hup.symm)
          rw [hq1]

/-- Target membership is row lookup plus the failing heuristic. -/
lemma mem_targetsOf {df : List Place} {q : Nat × Place} :
    q ∈ targetsOf df ↔ df[q.1]? = some q.2 ∧ has_data q.2 = false := by
  cases q with
  | mk i p =>
    simp [targetsOf, List.mem_filter, List.mk_mem_enum_iff_getElem?]

/-- The target rows carry pairwise distinct dataframe indices. -/
lemma targetsOf_pairwise (df : List Place) :
    (targetsOf df).Pairwise (fun a b => a.1 ≠ b.1) := by
  have h1 : df.enum.Pairwise (fun a b : Nat × Place => a.1 ≠ b.1) :=
    List.pairwise_map.mp (List.nodup_enum_map_fst df)
  exact List.Pairwise.sublist (List.filter_sublist _) h1

/-- C3: for a target whose selected neighbours include at least one with
a pre-parsed schedule, and canonical 7 x 24 schedules, the loop body
imputes the element-wise weighted sum of exactly the contributing
neighbour schedules divided by the sum of exactly their weights, each
cell truncated toward zero. -/
theorem C3_weighted_average :
    ∀ (distf : ℚ → ℚ → ℚ → ℚ → ℚ) (sources : List (Nat × Place))
      (scheds : List (Nat × List (List Int))) (t : Place),
      (∀ x ∈ scheds, shape724 x.2 = true) →
      contributing scheds (nearestOf distf sources t) ≠ [] →
      imputeVal distf sources scheds t = Except.ok (some
        (format_schedule_back_to_json (matTrunc (matDivScalar
          (specWeightedSum scheds (nearestOf distf sources t))
          (totalWeightOf scheds (nearestOf distf sources t)))))) :=
  fun _ _ _ _ h724 hc => imputeVal_impute h724 hc

/-- C3 witness: a concrete target with one contributing neighbour. -/
theorem C3_witness :
    contributing [(0, sevenMat)] (nearestOf (fun _ _ _ _ => (100 : ℚ))
      [(0, ⟨0, 0, some ⟨500, RawContent.days sevenDayRaw⟩⟩)] ⟨1, 1, none⟩) ≠ [] ∧
    imputeVal (fun _ _ _ _ => (100 : ℚ))
      [(0, ⟨0, 0, some ⟨500, RawContent.days sevenDayRaw⟩⟩)] [(0, sevenMat)]
      ⟨1, 1, none⟩ = Except.ok (some
        (format_schedule_back_to_json (matTrunc (matDivScalar
          (specWeightedSum [(0, sevenMat)] (nearestOf (fun _ _ _ _ => (100 : ℚ))
            [(0, ⟨0, 0, some ⟨500, RawContent.days sevenDayRaw⟩⟩)] ⟨1, 1, none⟩))
          (totalWeightOf [(0, sevenMat)] (nearestOf (fun _ _ _ _ => (100 : ℚ))
            [(0, ⟨0, 0, some ⟨500, RawContent.days sevenDayRaw⟩⟩)] ⟨1, 1, none⟩)))))) :=
  ⟨by decide, C3_weighted_average _ _ _ _ (by decide) (by decide)⟩

/-- C5 counterexample: a source whose raw schedule has eight day entries
decodes to an 8 x 24 matrix, and the accumulation for the first target
aborts the whole run with the numpy broadcast error instead of being
degraded to a skip; so an exception can abort the per-target loop. -/
theorem C5_counterexample :
    runImpute (fun _ _ _ _ => (100 : ℚ))
      [⟨0, 0, some ⟨500, RawContent.days eightDayRaw⟩⟩, ⟨1, 1, none⟩] =
      Except.error "operands could not be broadcast together" := by
  rfl

/-- C5 amended: when every pre-parsed source schedule has a shape numpy
can broadcast onto 7 x 24 (in particular the canonical 7 x 24 shape), no
exception aborts the per-target loop and the run returns normally; a
pre-parsed schedule of any other shape aborts the whole run. -/
theorem C5_no_abort_when_broadcastable :
    ∀ (distf : ℚ → ℚ → ℚ → ℚ → ℚ) (df : List Place),
      (sourcesOf df).isEmpty = false →
      (∀ x ∈ source_schedules df, broadcastable724 x.2 = true) →
      ∃ r, runImpute distf df = Except.ok r := by
  intro distf df hs hb
  obtain ⟨r, hr⟩ := runLoop_total hb (targetsOf df) df 0
  refine ⟨r, ?_⟩
  simp only [runImpute, hs, Bool.false_eq_true, if_false]
  exact hr

/-- C5 witness: the loop returns normally on a concrete dataframe with a
decodable canonical source and one target. -/
theorem C5_witness :
    ∃ r, runImpute (fun _ _ _ _ => (100 : ℚ))
      [⟨0, 0, some ⟨500, RawContent.days sevenDayRaw⟩⟩, ⟨1, 1, none⟩] =
      Except.ok r :=
  C5_no_abort_when_broadcastable _ _ (by decide) (by decide)

/-- C6: on a successful run, every row that passes the has-data test (in
particular every source) is returned unchanged, and every target row of
the output is its input row updated (or left alone) according to the
loop body computed only from the pre-loop source rows and the pre-parsed
source schedules, never from another imputed target. -/
theorem C6_sources_immutable_no_backfill :
    ∀ (distf : ℚ → ℚ → ℚ → ℚ → ℚ) (df df2 : List Place) (n : Nat),
      runImpute distf df = Except.ok (df2, n) →
      (∀ (j : Nat) (p : Place), df[j]? = some p → has_data p = true →
        df2[j]? = some p) ∧
      (∀ q ∈ targetsOf df,
        ∃ r, imputeVal distf (sourcesOf df) (source_schedules df) q.2 =
            Except.ok r ∧
          df2[q.1]? = (match r with
            | none => df[q.1]?
            | some e => df[q.1]?.map (fun p => { p with popular_times := some (RawField.mk (dumpsLen e) (RawContent.days e)) }))) := by
  intro distf df df2 n h
  simp only [runImpute] at h
  by_cases hs : (sourcesOf df).isEmpty
  · rw [if_pos hs] at h
    exact Except.noConfusion h
  · rw [if_neg hs] at h
    constructor
    · intro j p hj hd
      have hnt : ∀ q ∈ targetsOf df, q.1 ≠ j := by
        intro q hq hq1
        obtain ⟨hget, hdata⟩ := mem_targetsOf.mp hq
        rw [hq1, hj] at hget
        rw [Option.some.inj hget] at hd
        rw [hd] at hdata
        exact Bool.true_eq_false.mp hdata
      rw [runLoop_frame _ _ _ (df2, n) h j hnt]
      exact hj
    · exact runLoop_target _ _ _ _ _ (targetsOf_pairwise df) h

/-- C6 witness: a concrete run returning normally, with the source row
unchanged. -/
theorem C6_witness :
    runImpute (fun _ _ _ _ => (100 : ℚ)) skipDf = Except.ok (skipDf, 0) ∧
    ∀ (j : Nat) (p : Place), skipDf[j]? = some p → has_data p = true →
      skipDf[j]? = some p := by
  have hrun : runImpute (fun _ _ _ _ => (100 : ℚ)) skipDf =
      Except.ok (skipDf, 0) := by
    rfl
  exact ⟨hrun, (C6_sources_immutable_no_backfill _ _ _ _ hrun).1⟩

/-- C4 amended: a run with zero sources aborts with a top-level error
before imputing anything; on a successful run the counter the script
tracks and reports equals the number of imputed targets, and every
target to which no selected neighbour contributes is left completely
unmodified (the code maintains no separate skipped counter; the skipped
total is only derivable as the number of targets minus the imputed
count). -/
theorem C4_skip_and_count :
    ∀ (distf : ℚ → ℚ → ℚ → ℚ → ℚ) (df : List Place),
      ((sourcesOf df).isEmpty = true → ∃ e, runImpute distf df = Except.error e) ∧
      (∀ (df2 : List Place) (n : Nat), runImpute distf df = Except.ok (df2, n) →
        n = (targetsOf df).countP
          (fun q => isImputed distf (sourcesOf df) (source_schedules df) q.2) ∧
        (∀ q ∈ targetsOf df,
          contributing (source_schedules df)
            (nearestOf distf (sourcesOf df) q.2) = [] →
          df2[q.1]? = df[q.1]?)) := by
  intro distf df
  constructor
  · intro hs
    exact ⟨"No source data found to spread", by simp [runImpute, hs]⟩
  · intro df2 n h
    simp only [runImpute] at h
    by_cases hs : (sourcesOf df).isEmpty
    · rw [if_pos hs] at h
      exact Except.noConfusion h
    · rw [if_neg hs] at h
      constructor
      · rw [runLoop_count _ _ _ _ _ h]
        exact (Nat.zero_add _).symm ▸ rfl
      · intro q hq hcon
        obtain ⟨r, hr, hval⟩ :=
          runLoop_target _ _ _ _ _ (targetsOf_pairwise df) h q hq
        rw [imputeVal_skip hcon] at hr
        have hrn : r = none := (Except.ok.inj hr).symm
        rw [hrn] at hval
        exact hval

/-- C4 witness: a zero-source run errors out, and on a concrete
successful run where nothing contributes the imputed counter is zero. -/
theorem C4_witness :
    (∃ e, runImpute (fun _ _ _ _ => (100 : ℚ)) [⟨0, 0, none⟩] =
      Except.error e) ∧
    (0 : Nat) = (targetsOf skipDf).countP
      (fun q => isImputed (fun _ _ _ _ => (100 : ℚ)) (sourcesOf skipDf)
        (source_schedules skipDf) q.2) := by
  refine ⟨(C4_skip_and_count (fun _ _ _ _ => (100 : ℚ)) [⟨0, 0, none⟩]).1
    (by decide), ?_⟩
  exact ((C4_skip_and_count (fun _ _ _ _ => (100 : ℚ)) skipDf).2 skipDf 0
    (by rfl)).1

/-- C4 counterexample: a run over cexDf with cexDist imputes one target
and skips two; the script reports the counters 7 (places), 4 (sources),
3 (targets) and 1 (filled), and no reported counter equals the number 2
of skipped targets, so the claimed skipped count is not counted or
reported by the run. -/
theorem C4_counterexample :
    reportedCounters cexDist cexDf = some [7, 4, 3, 1] ∧
    (targetsOf cexDf).countP (fun q => !(isImputed cexDist (sourcesOf cexDf)
      (source_schedules cexDf) q.2)) = 2 ∧
    (2 : Nat) ∉ [7, 4, 3, 1] := by
  have h1 : imputeVal cexDist (sourcesOf cexDf) (source_schedules cexDf)
      ⟨100, 0, none⟩ = Except.ok (some
        (format_schedule_back_to_json (matTrunc (matDivScalar
          (specWeightedSum (source_schedules cexDf)
            (nearestOf cexDist (sourcesOf cexDf) ⟨100, 0, none⟩))
          (totalWeightOf (source_schedules cexDf)
            (nearestOf cexDist (sourcesOf cexDf) ⟨100, 0, none⟩)))))) :=
    imputeVal_impute (by decide) (by decide)
  have h2 : imputeVal cexDist (sourcesOf cexDf) (source_schedules cexDf)
      ⟨200, 0, none⟩ = Except.ok none := imputeVal_skip (by decide)
  have h3 : imputeVal cexDist (sourcesOf cexDf) (source_schedules cexDf)
      ⟨300, 0, none⟩ = Except.ok none := imputeVal_skip (by decide)
  have hempty : (sourcesOf cexDf).isEmpty = false := by decide
  have htg : targetsOf cexDf =
      [(4, ⟨100, 0, none⟩), (5, ⟨200, 0, none⟩), (6, ⟨300, 0, none⟩)] := by
    decide
  have hi1 : isImputed cexDist (sourcesOf cexDf) (source_schedules cexDf)
      ⟨100, 0, none⟩ = true := by
    simp only [isImputed, h1]
  have hi2 : isImputed cexDist (sourcesOf cexDf) (source_schedules cexDf)
      ⟨200, 0, none⟩ = false := by
    simp only [isImputed, h2]
  have hi3 : isImputed cexDist (sourcesOf cexDf) (source_schedules cexDf)
      ⟨300, 0, none⟩ = false := by
    simp only [isImputed, h3]
  refine ⟨?_, ?_, by decide⟩
  · obtain ⟨⟨df2, n⟩, hr0⟩ := @runLoop_total cexDist (sourcesOf cexDf)
      (source_schedules cexDf)
      (by decide : ∀ x ∈ source_schedules cexDf, broadcastable724 x.2 = true)
      (targetsOf cexDf) cexDf 0
    have hn : n = 1 := by
      have hcnt := runLoop_count _ _ _ _ _ hr0
      rw [htg] at hcnt
      simpa [List.countP_cons, hi1, hi2, hi3] using hcnt
    subst hn
    have hrun : runImpute cexDist cexDf = Except.ok (df2, 1) := by
      simp only [runImpute, hempty, Bool.false_eq_true, if_false]
      exact hr0
    simp only [reportedCounters, hrun]
    decide
  · rw [htg]
    simp [List.countP_cons, hi1, hi2, hi3]

end Impute
